import Mathlib

/-!
# Verification of the embedded memory-safety toolkit (`memory_utils.c`)

Shallow embedding of the fixed-capacity block pool, the guarded-buffer
overflow detector, the bounded string operations and the secure memory
operations, together with proofs of the specified properties.

Modelling conventions:
* Machine bytes are `Nat` values; memory regions are `List Nat`.
* A C pointer into the pool is modelled by `PoolPtr`: `null`, a pair
  (block index, byte offset inside the block's data array), or a pointer
  outside every block's data range.  Raw lists stand for non-null
  caller-supplied regions; nullable parameters are `Option (List Nat)`.
* `uint32_t` counters are `Nat` with arithmetic reduced mod `2 ^ 32`;
  `size_t` arithmetic (in `create_guarded_buffer`) is reduced mod `2 ^ 64`.
* Reading memory past the end of a region's list yields 0, matching the
  NUL terminator convention used by the string routines; `List.set` out of
  range is a no-op (the C counterpart would be an out-of-bounds write).
-/

/-- `#define POOL_BLOCK_SIZE 64` -/
def POOL_BLOCK_SIZE : Nat := 64

/-- `#define POOL_NUM_BLOCKS 32` -/
def POOL_NUM_BLOCKS : Nat := 32

/-- `#define GUARD_PATTERN 0xDEADBEEF` -/
def GUARD_PATTERN : Nat := 0xDEADBEEF

/-- Modulus of `uint32_t` arithmetic. -/
def U32_MOD : Nat := 2 ^ 32

/-- Modulus of `size_t` arithmetic (64-bit target). -/
def U64_MOD : Nat := 2 ^ 64

/-- `MemoryBlock`: 64 data bytes plus an in-use flag. -/
structure MemoryBlock where
  data : List Nat
  in_use : Bool
deriving DecidableEq

/-- A zero-filled free block, as produced by `= {0}` initialisation. -/
def zeroBlock : MemoryBlock :=
  { data := List.replicate POOL_BLOCK_SIZE 0, in_use := false }

/-- `MemoryPool`: the fixed array of blocks and the two `uint32_t` counters. -/
structure MemoryPool where
  blocks : List MemoryBlock
  allocated_count : Nat
  peak_usage : Nat
deriving DecidableEq

/-- `static MemoryPool g_memory_pool = {0};` — the initial pool state. -/
def initialPool : MemoryPool :=
  { blocks := List.replicate POOL_NUM_BLOCKS zeroBlock
    allocated_count := 0
    peak_usage := 0 }

/-- A C pointer aimed at the pool: `NULL`, a pointer `blocks[i].data + off`
inside a block's data range (meaningful for `i < 32`, `off < 64`), or an
address outside every block's data range. -/
inductive PoolPtr where
  | null : PoolPtr
  | inPool : Nat → Nat → PoolPtr
  | outside : PoolPtr
deriving DecidableEq

/-- The scan `for (i = 0; i < POOL_NUM_BLOCKS; i++) if (!blocks[i].in_use)`
from `pool_alloc`: index of the first block whose in-use flag is clear. -/
def findFreeIdx : List MemoryBlock → Option Nat
  | [] => none
  | b :: bs => if b.in_use then (findFreeIdx bs).map (· + 1) else some 0

/-- `pool_alloc` (memory_utils.c:41-62).  Returns the handle — `some i` is
the pointer `blocks[i].data` — together with the pool after the call.
On success the block is marked in use, the counters are updated and the
block's 64 bytes are cleared by `memset`. -/
def pool_alloc (pool : MemoryPool) (size : Nat) : Option Nat × MemoryPool :=
  if size = 0 ∨ POOL_BLOCK_SIZE < size then
    (none, pool)
  else
    match findFreeIdx pool.blocks with
    | none => (none, pool)
    | some i =>
      let count := (pool.allocated_count + 1) % U32_MOD
      let peak := if pool.peak_usage < count then count else pool.peak_usage
      (some i,
        { blocks := pool.blocks.set i { data := List.replicate POOL_BLOCK_SIZE 0, in_use := true }
          allocated_count := count
          peak_usage := peak })

/-- `pool_free` (memory_utils.c:64-88).  The address-range scan finds the
block whose data range contains the pointer; an in-pool pointer `(i, off)`
with `i < 32` and `off < 64` is found at index `i`.  A found block that is
in use is cleared and released; a found block already free hits the
`break` (double free) and nothing is mutated; otherwise the pointer is
invalid and nothing is mutated. -/
def pool_free (pool : MemoryPool) (ptr : PoolPtr) : Bool × MemoryPool :=
  match ptr with
  | PoolPtr.null => (false, pool)
  | PoolPtr.outside => (false, pool)
  | PoolPtr.inPool i off =>
    if i < POOL_NUM_BLOCKS ∧ off < POOL_BLOCK_SIZE then
      if (pool.blocks.getD i zeroBlock).in_use then
        (true,
          { blocks := pool.blocks.set i { data := List.replicate POOL_BLOCK_SIZE 0, in_use := false }
            allocated_count := (pool.allocated_count + (U32_MOD - 1)) % U32_MOD
            peak_usage := pool.peak_usage })
      else
        (false, pool)
    else
      (false, pool)

/-- `pool_get_stats` (memory_utils.c:90-94): a pure read of the counters.
Modelled as returning `(current, peak, total)` and the (unchanged) pool. -/
def pool_get_stats (pool : MemoryPool) : (Nat × Nat × Nat) × MemoryPool :=
  ((pool.allocated_count, pool.peak_usage, POOL_NUM_BLOCKS), pool)

/-- `pool_reset` (memory_utils.c:96-103): clears every block and
`allocated_count`; `peak_usage` is deliberately kept. -/
def pool_reset (pool : MemoryPool) : MemoryPool :=
  { blocks := pool.blocks.map (fun _ => zeroBlock)
    allocated_count := 0
    peak_usage := pool.peak_usage }

/-- Read one byte of a memory region; indices past the end of the list
read 0 (the NUL terminator of a C string stored there). -/
def readByte (mem : List Nat) (i : Nat) : Nat :=
  mem.getD i 0

/-- Write one byte of a memory region (`mem[i] = v`). -/
def writeByte (mem : List Nat) (i : Nat) (v : Nat) : List Nat :=
  mem.set i v

/-- Store a `uint32_t` little-endian at byte offset `off`. -/
def writeU32le (mem : List Nat) (off v : Nat) : List Nat :=
  ((((mem.set off (v % 256)).set (off + 1) (v / 256 % 256)).set
      (off + 2) (v / 256 ^ 2 % 256)).set (off + 3) (v / 256 ^ 3 % 256))

/-- Load a `uint32_t` little-endian from byte offset `off`. -/
def readU32le (mem : List Nat) (off : Nat) : Nat :=
  readByte mem off + 256 * readByte mem (off + 1) +
    256 ^ 2 * readByte mem (off + 2) + 256 ^ 3 * readByte mem (off + 3)

/-- Contents of a block right after `create_guarded_buffer` initialised it
(memory_utils.c:197-202): the block is zero-filled by `pool_alloc`, then
`buffer->guard_start = GUARD_PATTERN` writes the pattern at offsets 0-3 and
`*guard_end = GUARD_PATTERN` writes it at offsets `4+size` - `7+size`.
The payload occupies offsets `[4, 4+size)`. -/
def guardedBlockBytes (size : Nat) : List Nat :=
  writeU32le (writeU32le (List.replicate POOL_BLOCK_SIZE 0) 0 GUARD_PATTERN)
    (4 + size) GUARD_PATTERN

/-- `check_buffer_integrity` (memory_utils.c:207-216) on a non-null payload
pointer sitting at offset 4 of block bytes `mem`: reads the `uint32_t` at
`ptr - 4` (block offset 0) and at `ptr + size` (block offset `4+size`) and
compares both with `GUARD_PATTERN`; `size == 0` (like `ptr == NULL`)
returns false up front. -/
def check_buffer_integrity (mem : List Nat) (size : Nat) : Bool :=
  if size = 0 then false
  else decide (readU32le mem 0 = GUARD_PATTERN ∧ readU32le mem (4 + size) = GUARD_PATTERN)

/-- `create_guarded_buffer` (memory_utils.c:184-205).  `total_size` is
computed in `size_t`, hence mod `2 ^ 64`.  On success the fresh block's
bytes become `guardedBlockBytes size` (for oversized `size` the C end-marker
store would land outside the block — undefined behaviour — modelled by the
out-of-range `List.set` no-op).  Returns the payload handle (the index of
the owning block) and the pool after the call. -/
def create_guarded_buffer (pool : MemoryPool) (size : Nat) : Option Nat × MemoryPool :=
  if size = 0 then (none, pool)
  else
    let total_size := (4 + size + 4) % U64_MOD
    match pool_alloc pool total_size with
    | (none, p) => (none, p)
    | (some i, p) =>
      (some i,
        { p with blocks := p.blocks.set i { data := guardedBlockBytes size, in_use := true } })

/-- `free_guarded_buffer` (memory_utils.c:218-231) for a payload handle
living at offset 4 of block `i`: runs `check_buffer_integrity` on the
block's bytes; if intact it calls `pool_free(buffer)` on the block's start
address (block offset 0); if corrupted it only prints a warning and leaves
the pool untouched. -/
def free_guarded_buffer (pool : MemoryPool) (i : Nat) (size : Nat) : MemoryPool :=
  if check_buffer_integrity ((pool.blocks.getD i zeroBlock).data) size then
    (pool_free pool (PoolPtr.inPool i 0)).2
  else
    pool

/-- Length of a C string stored in a region: index of the first 0 byte
(the byte at `mem.length`, read as 0, terminates at the latest). -/
def cstrLen : List Nat → Nat
  | [] => 0
  | b :: bs => if b = 0 then 0 else cstrLen bs + 1

/-- The copy loop of `safe_strcpy` (memory_utils.c:116-119):
`for (i = 0; i < dest_size - 1 && src[i] != '\0'; i++) dest[i] = src[i];`
followed by `dest[i] = '\0'`.  `fuel` is the remaining iteration budget
`dest_size - 1 - i`; the result is the destination after the terminating
store together with the final value of `i`. -/
def strcpyLoop (s d : List Nat) (i : Nat) : Nat → List Nat × Nat
  | 0 => (d.set i 0, i)
  | fuel + 1 =>
    if readByte s i = 0 then (d.set i 0, i)
    else strcpyLoop s (d.set i (readByte s i)) (i + 1) fuel

/-- `safe_strcpy` (memory_utils.c:110-122).  Returns the C status
(-1 invalid, 0 ok, 1 truncated) and the destination after the call. -/
def safe_strcpy (dest : Option (List Nat)) (dest_size : Nat) (src : Option (List Nat)) :
    Int × Option (List Nat) :=
  match dest, src with
  | some d, some s =>
    if dest_size = 0 then (-1, some d)
    else
      let r := strcpyLoop s d 0 (dest_size - 1)
      ((if readByte s r.2 = 0 then 0 else 1), some r.1)
  | d, _ => (-1, d)

/-- The accumulator of `secure_memcmp`'s loop (memory_utils.c:259-261)
after `size` iterations: `result |= bytes1[i] ^ bytes2[i]` in program
order. -/
def secureLoop (b1 b2 : List Nat) : Nat → Nat
  | 0 => 0
  | n + 1 => secureLoop b1 b2 n ||| (readByte b1 n ^^^ readByte b2 n)

/-- `secure_memcmp` (memory_utils.c:250-264): false on a NULL argument,
otherwise true iff the OR-of-XOR accumulator over all `size` bytes ends
at zero. -/
def secure_memcmp (ptr1 ptr2 : Option (List Nat)) (size : Nat) : Bool :=
  match ptr1, ptr2 with
  | some b1, some b2 => secureLoop b1 b2 size == 0
  | _, _ => false

/-- Number of blocks whose in-use flag is set. -/
def countInUse (blocks : List MemoryBlock) : Nat :=
  (blocks.filter (fun b => b.in_use)).length

/-- The pool invariant of the data model: `allocated_count` equals the
number of in-use blocks and lies in `[0, POOL_NUM_BLOCKS]`; the block
array has its fixed length. -/
def poolInv (pool : MemoryPool) : Prop :=
  pool.allocated_count = countInUse pool.blocks ∧
    pool.allocated_count ≤ POOL_NUM_BLOCKS ∧
    pool.blocks.length = POOL_NUM_BLOCKS

/-! ## General helper lemmas -/

theorem lor_eq_zero_iff (a b : Nat) : a ||| b = 0 ↔ a = 0 ∧ b = 0 := by
  constructor
  · intro h
    constructor
    · apply Nat.eq_of_testBit_eq
      intro i
      have h2 := congrArg (fun x => Nat.testBit x i) h
      simp [Nat.testBit_lor] at h2
      simp [h2.1]
    · apply Nat.eq_of_testBit_eq
      intro i
      have h2 := congrArg (fun x => Nat.testBit x i) h
      simp [Nat.testBit_lor] at h2
      simp [h2.2]
  · rintro ⟨rfl, rfl⟩; rfl

theorem getD_set_self {α : Type} (l : List α) (i : Nat) (v d : α) (h : i < l.length) :
    (l.set i v).getD i d = v := by
  simp [List.getD_eq_getElem?_getD, List.getElem?_set_self', List.getElem?_eq_getElem, h]

theorem getD_set_ne {α : Type} (l : List α) {i j : Nat} (v d : α) (h : i ≠ j) :
    (l.set i v).getD j d = l.getD j d := by
  simp [List.getD_eq_getElem?_getD, List.getElem?_set_ne h]

theorem readByte_writeByte_self (m : List Nat) (i v : Nat) (h : i < m.length) :
    readByte (writeByte m i v) i = v :=
  getD_set_self m i v 0 h

theorem readByte_writeByte_ne (m : List Nat) {i j : Nat} (v : Nat) (h : i ≠ j) :
    readByte (writeByte m i v) j = readByte m j :=
  getD_set_ne m v 0 h

theorem length_writeByte (m : List Nat) (i v : Nat) :
    (writeByte m i v).length = m.length := by
  simp [writeByte]

theorem POOL_NUM_BLOCKS_eq : POOL_NUM_BLOCKS = 32 := rfl

theorem POOL_BLOCK_SIZE_eq : POOL_BLOCK_SIZE = 64 := rfl

theorem U32_MOD_eq : U32_MOD = 4294967296 := by norm_num [U32_MOD]

theorem U64_MOD_eq : U64_MOD = 18446744073709551616 := by norm_num [U64_MOD]

/-! ## Equation lemmas for the pool operations -/

theorem pool_alloc_invalid (pool : MemoryPool) (size : Nat)
    (hs : size = 0 ∨ POOL_BLOCK_SIZE < size) :
    pool_alloc pool size = (none, pool) := by
  rw [pool_alloc, if_pos hs]

theorem pool_alloc_exhausted (pool : MemoryPool) (size : Nat)
    (hs : ¬(size = 0 ∨ POOL_BLOCK_SIZE < size))
    (hfind : findFreeIdx pool.blocks = none) :
    pool_alloc pool size = (none, pool) := by
  rw [pool_alloc, if_neg hs, hfind]

theorem pool_alloc_success (pool : MemoryPool) (size i : Nat)
    (hs : ¬(size = 0 ∨ POOL_BLOCK_SIZE < size))
    (hfind : findFreeIdx pool.blocks = some i) :
    pool_alloc pool size =
      (some i,
        { blocks := pool.blocks.set i { data := List.replicate POOL_BLOCK_SIZE 0, in_use := true }
          allocated_count := (pool.allocated_count + 1) % U32_MOD
          peak_usage :=
            if pool.peak_usage < (pool.allocated_count + 1) % U32_MOD
            then (pool.allocated_count + 1) % U32_MOD
            else pool.peak_usage }) := by
  rw [pool_alloc, if_neg hs, hfind]

theorem pool_free_found_free (pool : MemoryPool) (i off : Nat)
    (hi : i < POOL_NUM_BLOCKS) (hoff : off < POOL_BLOCK_SIZE)
    (hfree : (pool.blocks.getD i zeroBlock).in_use = false) :
    pool_free pool (PoolPtr.inPool i off) = (false, pool) := by
  rw [List.getD_eq_getElem?_getD] at hfree
  simp [pool_free, hi, hoff, hfree]

theorem pool_free_found_in_use (pool : MemoryPool) (i off : Nat)
    (hi : i < POOL_NUM_BLOCKS) (hoff : off < POOL_BLOCK_SIZE)
    (huse : (pool.blocks.getD i zeroBlock).in_use = true) :
    pool_free pool (PoolPtr.inPool i off) =
      (true,
        { blocks := pool.blocks.set i { data := List.replicate POOL_BLOCK_SIZE 0, in_use := false }
          allocated_count := (pool.allocated_count + (U32_MOD - 1)) % U32_MOD
          peak_usage := pool.peak_usage }) := by
  rw [List.getD_eq_getElem?_getD] at huse
  simp [pool_free, hi, hoff, huse]

theorem pool_free_not_found (pool : MemoryPool) (i off : Nat)
    (h : ¬(i < POOL_NUM_BLOCKS ∧ off < POOL_BLOCK_SIZE)) :
    pool_free pool (PoolPtr.inPool i off) = (false, pool) := by
  simp only [pool_free, if_neg h]

/-! ## Secure comparison (C8) -/

theorem secureLoop_eq_zero_iff (b1 b2 : List Nat) (n : Nat) :
    secureLoop b1 b2 n = 0 ↔ ∀ i, i < n → readByte b1 i = readByte b2 i := by
  induction n with
  | zero => simp [secureLoop]
  | succ k ih =>
    rw [secureLoop, lor_eq_zero_iff, ih, Nat.xor_eq_zero]
    constructor
    · rintro ⟨h1, h2⟩ i hi
      rcases Nat.lt_succ_iff_lt_or_eq.mp hi with h | rfl
      · exact h1 i h
      · exact h2
    · intro h
      exact ⟨fun i hi => h i (Nat.lt_succ_of_lt hi), h k (Nat.lt_succ_self k)⟩

/-- C8: `secure_memcmp` scans all `size` bytes accumulating the OR of
per-position XORs and returns true exactly when the accumulator is zero,
i.e. exactly when the two regions agree on every one of the first `size`
bytes; in particular comparing a region with itself is always true. -/
theorem secure_memcmp_spec (a b : List Nat) (size : Nat) :
    (secure_memcmp (some a) (some b) size = true ↔
      ∀ i, i < size → readByte a i = readByte b i) ∧
    secure_memcmp (some a) (some a) size = true := by
  constructor
  · simp [secure_memcmp, secureLoop_eq_zero_iff]
  · simp [secure_memcmp, secureLoop_eq_zero_iff]

/-! ## Double free (C4) -/

/-- C4: releasing a pointer that lies inside a block's data range while the
owning block is already marked free returns `false` (DoubleFree) and leaves
the entire pool state — every in-use flag, every byte, `allocated_count`
and `peak_usage` — unchanged. -/
theorem pool_free_double_free (pool : MemoryPool) (i off : Nat)
    (hi : i < POOL_NUM_BLOCKS) (hoff : off < POOL_BLOCK_SIZE)
    (hfree : (pool.blocks.getD i zeroBlock).in_use = false) :
    pool_free pool (PoolPtr.inPool i off) = (false, pool) :=
  pool_free_found_free pool i off hi hoff hfree

theorem pool_free_double_free_witness :
    pool_free initialPool (PoolPtr.inPool 0 0) = (false, initialPool) :=
  pool_free_double_free initialPool 0 0 (by decide) (by decide) (by decide)

/-! ## Peak usage monotonicity (C6) -/

/-- C6: `peak_usage` never decreases across any single pool operation —
allocate, release, stats or reset — and `pool_reset` zeroes
`allocated_count` while leaving `peak_usage` unchanged. -/
theorem peak_usage_monotone (pool : MemoryPool) (size : Nat) (ptr : PoolPtr) :
    pool.peak_usage ≤ (pool_alloc pool size).2.peak_usage ∧
    pool.peak_usage ≤ (pool_free pool ptr).2.peak_usage ∧
    (pool_get_stats pool).2.peak_usage = pool.peak_usage ∧
    (pool_reset pool).peak_usage = pool.peak_usage ∧
    (pool_reset pool).allocated_count = 0 := by
  refine ⟨?_, ?_, rfl, rfl, rfl⟩
  · unfold pool_alloc
    split
    · exact Nat.le_refl _
    · cases h : findFreeIdx pool.blocks with
      | none => simp
      | some i =>
        simp only
        split
        · exact Nat.le_of_lt (by assumption)
        · exact Nat.le_refl _
  · unfold pool_free
    cases ptr with
    | null => exact Nat.le_refl _
    | outside => exact Nat.le_refl _
    | inPool i off =>
      simp only
      split
      · split
        · exact Nat.le_refl _
        · exact Nat.le_refl _
      · exact Nat.le_refl _

/-! ## The allocation scan and the in-use count -/

theorem findFreeIdx_eq_none_iff (bs : List MemoryBlock) :
    findFreeIdx bs = none ↔ ∀ b ∈ bs, b.in_use = true := by
  induction bs with
  | nil => simp [findFreeIdx]
  | cons b rest ih =>
    cases hb : b.in_use with
    | true => simp [findFreeIdx, hb, Option.map_eq_none', ih]
    | false => simp [findFreeIdx, hb]

theorem findFreeIdx_some (bs : List MemoryBlock) (i : Nat) (h : findFreeIdx bs = some i) :
    i < bs.length ∧ (bs.getD i zeroBlock).in_use = false ∧
      ∀ j, j < i → (bs.getD j zeroBlock).in_use = true := by
  induction bs generalizing i with
  | nil => simp [findFreeIdx] at h
  | cons b rest ih =>
    cases hb : b.in_use with
    | true =>
      rw [findFreeIdx, if_pos hb, Option.map_eq_some'] at h
      obtain ⟨i', hi', rfl⟩ := h
      obtain ⟨h1, h2, h3⟩ := ih i' hi'
      refine ⟨Nat.succ_lt_succ h1, by simpa using h2, ?_⟩
      intro j hj
      cases j with
      | zero => simpa using hb
      | succ j' => simpa using h3 j' (Nat.lt_of_succ_lt_succ hj)
    | false =>
      rw [findFreeIdx, if_neg (by simp [hb])] at h
      obtain rfl : 0 = i := Option.some.inj h
      exact ⟨Nat.succ_pos _, by simpa using hb, fun j hj => absurd hj (Nat.not_lt_zero j)⟩

theorem countInUse_cons (b : MemoryBlock) (bs : List MemoryBlock) :
    countInUse (b :: bs) = (if b.in_use then 1 else 0) + countInUse bs := by
  cases hb : b.in_use with
  | true =>
    simp only [countInUse, List.filter_cons, hb, if_pos, List.length_cons]
    omega
  | false => simp [countInUse, List.filter_cons, hb]

theorem countInUse_le_length (bs : List MemoryBlock) : countInUse bs ≤ bs.length :=
  List.length_filter_le _ _

theorem countInUse_set (bs : List MemoryBlock) (i : Nat) (b : MemoryBlock)
    (h : i < bs.length) :
    countInUse (bs.set i b) + (if (bs.getD i zeroBlock).in_use then 1 else 0) =
      countInUse bs + (if b.in_use then 1 else 0) := by
  induction bs generalizing i with
  | nil => simp at h
  | cons hd rest ih =>
    cases i with
    | zero => simp [List.set, countInUse_cons]; omega
    | succ i' =>
      have hrec := ih i' (Nat.lt_of_succ_lt_succ h)
      simp only [List.set, countInUse_cons, List.getD_cons_succ]
      omega

theorem countInUse_lt_of_free (bs : List MemoryBlock) (i : Nat) (h : i < bs.length)
    (hfree : (bs.getD i zeroBlock).in_use = false) : countInUse bs < bs.length := by
  induction bs generalizing i with
  | nil => simp at h
  | cons hd rest ih =>
    cases i with
    | zero =>
      simp only [List.getD_cons_zero] at hfree
      have hle := countInUse_le_length rest
      simp [countInUse_cons, hfree]
      omega
    | succ i' =>
      have hrec := ih i' (Nat.lt_of_succ_lt_succ h) (by simpa using hfree)
      simp only [countInUse_cons, List.length_cons]
      split
      · omega
      · omega

theorem countInUse_map_zero (bs : List MemoryBlock) :
    countInUse (bs.map (fun _ => zeroBlock)) = 0 := by
  induction bs with
  | nil => rfl
  | cons hd rest ih => simpa [countInUse_cons, zeroBlock] using ih

/-! ## Pool invariant (C5) -/

theorem poolInv_def (pool : MemoryPool) :
    poolInv pool ↔
      pool.allocated_count = countInUse pool.blocks ∧
        pool.allocated_count ≤ POOL_NUM_BLOCKS ∧
        pool.blocks.length = POOL_NUM_BLOCKS :=
  Iff.rfl

theorem poolInv_initial : poolInv initialPool := by
  rw [poolInv_def]
  refine ⟨by decide, by decide, by decide⟩

/-- C5: the pool invariant — `allocated_count` equals the number of
in-use blocks and lies in `[0, POOL_NUM_BLOCKS]` — holds in the initial
pool state and is preserved by `pool_alloc`, `pool_free`,
`pool_get_stats` and `pool_reset`. -/
theorem poolInv_preserved (pool : MemoryPool) (size : Nat) (ptr : PoolPtr)
    (hinv : poolInv pool) :
    poolInv initialPool ∧
    poolInv (pool_alloc pool size).2 ∧
    poolInv (pool_free pool ptr).2 ∧
    poolInv (pool_get_stats pool).2 ∧
    poolInv (pool_reset pool) := by
  obtain ⟨hc, hle, hlen⟩ := (poolInv_def pool).mp hinv
  rw [POOL_NUM_BLOCKS_eq] at hle hlen
  refine ⟨poolInv_initial, ?_, ?_, hinv, ?_⟩
  · by_cases hs : size = 0 ∨ POOL_BLOCK_SIZE < size
    · rw [pool_alloc_invalid pool size hs]; exact hinv
    · cases hfind : findFreeIdx pool.blocks with
      | none => rw [pool_alloc_exhausted pool size hs hfind]; exact hinv
      | some i =>
        rw [pool_alloc_success pool size i hs hfind]
        obtain ⟨hilt, hifree, _⟩ := findFreeIdx_some pool.blocks i hfind
        have hset := countInUse_set pool.blocks i
          { data := List.replicate POOL_BLOCK_SIZE 0, in_use := true } hilt
        rw [hifree] at hset
        have hcount : countInUse
            (pool.blocks.set i { data := List.replicate POOL_BLOCK_SIZE 0, in_use := true }) =
            countInUse pool.blocks + 1 := by
          simpa using hset
        have hlt : countInUse pool.blocks < 32 := by
          have h2 := countInUse_lt_of_free pool.blocks i hilt hifree
          omega
        have hmod : (pool.allocated_count + 1) % U32_MOD = pool.allocated_count + 1 := by
          rw [U32_MOD_eq]; omega
        rw [poolInv_def]
        refine ⟨?_, ?_, ?_⟩
        · show (pool.allocated_count + 1) % U32_MOD = countInUse _
          rw [hmod, hcount, hc]
        · show (pool.allocated_count + 1) % U32_MOD ≤ POOL_NUM_BLOCKS
          rw [hmod, POOL_NUM_BLOCKS_eq, hc]
          omega
        · show (pool.blocks.set i _).length = POOL_NUM_BLOCKS
          rw [POOL_NUM_BLOCKS_eq]
          simpa using hlen
  · cases ptr with
    | null => exact hinv
    | outside => exact hinv
    | inPool i off =>
      by_cases hrange : i < POOL_NUM_BLOCKS ∧ off < POOL_BLOCK_SIZE
      · cases huse : (pool.blocks.getD i zeroBlock).in_use with
        | false =>
          rw [pool_free_found_free pool i off hrange.1 hrange.2 huse]
          exact hinv
        | true =>
          have hsnd : (pool_free pool (PoolPtr.inPool i off)).2 =
              { blocks := pool.blocks.set i
                  { data := List.replicate POOL_BLOCK_SIZE 0, in_use := false }
                allocated_count := (pool.allocated_count + (U32_MOD - 1)) % U32_MOD
                peak_usage := pool.peak_usage } := by
            rw [pool_free_found_in_use pool i off hrange.1 hrange.2 huse]
          rw [hsnd]
          have hilt : i < pool.blocks.length := by
            rw [hlen]; exact POOL_NUM_BLOCKS_eq ▸ hrange.1
          have hset := countInUse_set pool.blocks i
            { data := List.replicate POOL_BLOCK_SIZE 0, in_use := false } hilt
          rw [huse] at hset
          have hcount : countInUse pool.blocks = countInUse
              (pool.blocks.set i { data := List.replicate POOL_BLOCK_SIZE 0, in_use := false }) + 1 := by
            simp at hset
            omega
          rw [poolInv_def]
          refine ⟨?_, ?_, ?_⟩
          · show (pool.allocated_count + (U32_MOD - 1)) % U32_MOD =
              countInUse (pool.blocks.set i
                { data := List.replicate POOL_BLOCK_SIZE 0, in_use := false })
            rw [U32_MOD_eq]
            rw [hcount] at hc
            omega
          · show (pool.allocated_count + (U32_MOD - 1)) % U32_MOD ≤ POOL_NUM_BLOCKS
            rw [U32_MOD_eq, POOL_NUM_BLOCKS_eq]
            rw [hcount] at hc
            omega
          · show (pool.blocks.set i _).length = POOL_NUM_BLOCKS
            rw [POOL_NUM_BLOCKS_eq]
            simpa using hlen
      · rw [pool_free_not_found pool i off hrange]
        exact hinv
  · rw [poolInv_def]
    refine ⟨?_, Nat.zero_le _, ?_⟩
    · show (0 : Nat) = countInUse (pool.blocks.map _)
      rw [countInUse_map_zero]
    · show (pool.blocks.map _).length = POOL_NUM_BLOCKS
      rw [POOL_NUM_BLOCKS_eq]
      simpa using hlen

theorem poolInv_preserved_witness :
    poolInv initialPool ∧
    poolInv (pool_alloc initialPool 8).2 ∧
    poolInv (pool_free initialPool PoolPtr.null).2 ∧
    poolInv (pool_get_stats initialPool).2 ∧
    poolInv (pool_reset initialPool) :=
  poolInv_preserved initialPool 8 PoolPtr.null poolInv_initial

/-! ## Allocation contract (C3) -/

/-- C3: `pool_alloc` fails exactly on `size == 0` or `size > 64` (InvalidSize)
or, for a valid size, exactly when every block is in use (Exhausted); a valid
request returns the first free block in index order, marks it in use,
zero-fills its 64 bytes, increments `allocated_count` by one and raises
`peak_usage` to the new count whenever that exceeds the previous peak. -/
theorem pool_alloc_contract (pool : MemoryPool) (size : Nat) (hinv : poolInv pool) :
    ((size = 0 ∨ POOL_BLOCK_SIZE < size) → pool_alloc pool size = (none, pool)) ∧
    (0 < size → size ≤ POOL_BLOCK_SIZE →
      (((pool_alloc pool size).1 = none) ↔ ∀ b ∈ pool.blocks, b.in_use = true) ∧
      (∀ i, (pool_alloc pool size).1 = some i →
        i < POOL_NUM_BLOCKS ∧
        (pool.blocks.getD i zeroBlock).in_use = false ∧
        (∀ j, j < i → (pool.blocks.getD j zeroBlock).in_use = true) ∧
        (pool_alloc pool size).2.blocks.getD i zeroBlock =
          { data := List.replicate POOL_BLOCK_SIZE 0, in_use := true } ∧
        (∀ j, j ≠ i →
          (pool_alloc pool size).2.blocks.getD j zeroBlock = pool.blocks.getD j zeroBlock) ∧
        (pool_alloc pool size).2.allocated_count = pool.allocated_count + 1 ∧
        (pool_alloc pool size).2.peak_usage =
          (if pool.peak_usage < pool.allocated_count + 1 then pool.allocated_count + 1
            else pool.peak_usage))) := by
  obtain ⟨hc, hle, hlen⟩ := (poolInv_def pool).mp hinv
  rw [POOL_NUM_BLOCKS_eq] at hle hlen
  refine ⟨pool_alloc_invalid pool size, ?_⟩
  intro hpos hsz
  have hs : ¬(size = 0 ∨ POOL_BLOCK_SIZE < size) := by omega
  have hmod : (pool.allocated_count + 1) % U32_MOD = pool.allocated_count + 1 := by
    rw [U32_MOD_eq]; omega
  cases hfind : findFreeIdx pool.blocks with
  | none =>
    rw [pool_alloc_exhausted pool size hs hfind]
    constructor
    · simp only [true_iff]
      exact (findFreeIdx_eq_none_iff pool.blocks).mp hfind
    · intro i hi
      simp at hi
  | some i0 =>
    rw [pool_alloc_success pool size i0 hs hfind]
    obtain ⟨hilt, hifree, hbefore⟩ := findFreeIdx_some pool.blocks i0 hfind
    constructor
    · constructor
      · intro h
        simp at h
      · intro hall
        have hnone := (findFreeIdx_eq_none_iff pool.blocks).mpr hall
        rw [hfind] at hnone
        cases hnone
    · intro i hi
      obtain rfl : i0 = i := by simpa using hi
      refine ⟨by rw [POOL_NUM_BLOCKS_eq]; omega, hifree, hbefore, ?_, ?_, ?_, ?_⟩
      · show (pool.blocks.set i0 _).getD i0 zeroBlock = _
        exact getD_set_self pool.blocks i0 _ zeroBlock hilt
      · intro j hj
        show (pool.blocks.set i0 _).getD j zeroBlock = pool.blocks.getD j zeroBlock
        exact getD_set_ne pool.blocks _ zeroBlock (Ne.symm hj)
      · show (pool.allocated_count + 1) % U32_MOD = pool.allocated_count + 1
        exact hmod
      · show (if pool.peak_usage < (pool.allocated_count + 1) % U32_MOD
            then (pool.allocated_count + 1) % U32_MOD else pool.peak_usage) =
          (if pool.peak_usage < pool.allocated_count + 1 then pool.allocated_count + 1
            else pool.peak_usage)
        rw [hmod]

theorem pool_alloc_contract_witness :
    pool_alloc initialPool 65 = (none, initialPool) ∧
    (pool_alloc initialPool 8).2.allocated_count = initialPool.allocated_count + 1 := by
  have h65 := pool_alloc_contract initialPool 65 poolInv_initial
  have h8 := pool_alloc_contract initialPool 8 poolInv_initial
  refine ⟨h65.1 (Or.inr (by decide)), ?_⟩
  have hsome : (pool_alloc initialPool 8).1 = some 0 := by decide
  exact ((h8.2 (by decide) (by decide)).2 0 hsome).2.2.2.2.2.1

/-! ## Guarded free (C2) -/

/-- C2: `free_guarded_buffer` first runs the integrity check; if it passes,
the owning block is released (in-use flag cleared, `allocated_count`
decremented, `peak_usage` untouched); if it fails, the pool — every flag,
every byte and both counters — is left entirely unchanged, so a corrupted
buffer is never returned to the free pool. -/
theorem free_guarded_buffer_spec (pool : MemoryPool) (i size : Nat)
    (hinv : poolInv pool) (hi : i < POOL_NUM_BLOCKS)
    (huse : (pool.blocks.getD i zeroBlock).in_use = true) :
    (check_buffer_integrity ((pool.blocks.getD i zeroBlock).data) size = true →
      ((free_guarded_buffer pool i size).blocks.getD i zeroBlock).in_use = false ∧
      (free_guarded_buffer pool i size).allocated_count = pool.allocated_count - 1 ∧
      (free_guarded_buffer pool i size).peak_usage = pool.peak_usage) ∧
    (check_buffer_integrity ((pool.blocks.getD i zeroBlock).data) size = false →
      free_guarded_buffer pool i size = pool) := by
  obtain ⟨hc, hle, hlen⟩ := (poolInv_def pool).mp hinv
  rw [POOL_NUM_BLOCKS_eq] at hle hlen
  have hilt : i < pool.blocks.length := by rw [hlen]; exact POOL_NUM_BLOCKS_eq ▸ hi
  constructor
  · intro hok
    have hsnd : (pool_free pool (PoolPtr.inPool i 0)).2 =
        { blocks := pool.blocks.set i
            { data := List.replicate POOL_BLOCK_SIZE 0, in_use := false }
          allocated_count := (pool.allocated_count + (U32_MOD - 1)) % U32_MOD
          peak_usage := pool.peak_usage } := by
      rw [pool_free_found_in_use pool i 0 hi (by rw [POOL_BLOCK_SIZE_eq]; omega) huse]
    rw [free_guarded_buffer, if_pos hok, hsnd]
    have hset := countInUse_set pool.blocks i
      { data := List.replicate POOL_BLOCK_SIZE 0, in_use := false } hilt
    rw [huse] at hset
    have hpos : 1 ≤ countInUse pool.blocks := by
      simp at hset
      omega
    refine ⟨?_, ?_, rfl⟩
    · show ((pool.blocks.set i _).getD i zeroBlock).in_use = false
      rw [getD_set_self pool.blocks i _ zeroBlock hilt]
    · show (pool.allocated_count + (U32_MOD - 1)) % U32_MOD = pool.allocated_count - 1
      rw [U32_MOD_eq]
      omega
  · intro hbad
    rw [free_guarded_buffer, if_neg (by rw [hbad]; simp)]

theorem free_guarded_buffer_spec_witness :
    ((free_guarded_buffer (create_guarded_buffer initialPool 16).2 0 16).blocks.getD 0
        zeroBlock).in_use = false ∧
    (free_guarded_buffer (create_guarded_buffer initialPool 16).2 0 16).allocated_count =
      (create_guarded_buffer initialPool 16).2.allocated_count - 1 ∧
    (free_guarded_buffer (create_guarded_buffer initialPool 16).2 0 16).peak_usage =
      (create_guarded_buffer initialPool 16).2.peak_usage :=
  (free_guarded_buffer_spec (create_guarded_buffer initialPool 16).2 0 16
    (by rw [poolInv_def]; refine ⟨by decide, by decide, by decide⟩)
    (by decide) (by decide)).1 (by decide)

/-! ## Bounded string copy (C7) -/

theorem cstrLen_le (s : List Nat) (j : Nat) (h : readByte s j = 0) : cstrLen s ≤ j := by
  induction s generalizing j with
  | nil => exact Nat.zero_le j
  | cons b bs ih =>
    cases j with
    | zero =>
      simp only [readByte, List.getD_cons_zero] at h
      simp [cstrLen, h]
    | succ j' =>
      by_cases hb : b = 0
      · simp [cstrLen, hb]
      · have hrec := ih j' (by simpa [readByte, List.getD_cons_succ] using h)
        simp only [cstrLen, if_neg hb]
        omega

theorem readByte_cstrLen (s : List Nat) : readByte s (cstrLen s) = 0 := by
  induction s with
  | nil => rfl
  | cons b bs ih =>
    by_cases hb : b = 0
    · simp [cstrLen, hb, readByte]
    · simpa [cstrLen, hb, readByte, List.getD_cons_succ] using ih

theorem strcpyLoop_spec (s : List Nat) (fuel : Nat) :
    ∀ (d : List Nat) (i : Nat), i + fuel < d.length →
      i ≤ (strcpyLoop s d i fuel).2 ∧
      (strcpyLoop s d i fuel).2 ≤ i + fuel ∧
      ((strcpyLoop s d i fuel).2 < i + fuel → readByte s (strcpyLoop s d i fuel).2 = 0) ∧
      (∀ k, i ≤ k → k < (strcpyLoop s d i fuel).2 → readByte s k ≠ 0) ∧
      (strcpyLoop s d i fuel).1.length = d.length ∧
      (∀ j, (strcpyLoop s d i fuel).1.getD j 0 =
        if i ≤ j ∧ j < (strcpyLoop s d i fuel).2 then readByte s j
        else if j = (strcpyLoop s d i fuel).2 then 0
        else d.getD j 0) := by
  induction fuel with
  | zero =>
    intro d i hlen
    simp only [strcpyLoop]
    refine ⟨Nat.le_refl i, by omega, fun h => absurd h (by omega),
      fun k hk hk2 => absurd (Nat.lt_of_le_of_lt hk hk2) (Nat.lt_irrefl i), by simp, ?_⟩
    intro j
    by_cases hj : j = i
    · subst hj
      rw [if_neg (by omega), if_pos rfl]
      exact getD_set_self d j 0 0 (by omega)
    · rw [if_neg (by omega), if_neg hj]
      exact getD_set_ne d 0 0 (fun h => hj h.symm)
  | succ fuel ih =>
    intro d i hlen
    by_cases hsi : readByte s i = 0
    · simp only [strcpyLoop, if_pos hsi]
      refine ⟨Nat.le_refl i, by omega, fun _ => hsi,
        fun k hk hk2 => absurd (Nat.lt_of_le_of_lt hk hk2) (Nat.lt_irrefl i), by simp, ?_⟩
      intro j
      by_cases hj : j = i
      · subst hj
        rw [if_neg (by omega), if_pos rfl]
        exact getD_set_self d j 0 0 (by omega)
      · rw [if_neg (by omega), if_neg hj]
        exact getD_set_ne d 0 0 (fun h => hj h.symm)
    · have hlen' : (i + 1) + fuel < (d.set i (readByte s i)).length := by
        simp only [List.length_set]
        omega
      obtain ⟨h1, h2, h3, h4, h5, h6⟩ := ih (d.set i (readByte s i)) (i + 1) hlen'
      simp only [strcpyLoop, if_neg hsi]
      refine ⟨by omega, by omega, fun h => h3 (by omega), ?_, by rw [h5]; simp, ?_⟩
      · intro k hk hk2
        by_cases hki : k = i
        · subst hki; exact hsi
        · exact h4 k (by omega) hk2
      · intro j
        rw [h6 j]
        by_cases hji : j = i
        · subst hji
          rw [if_neg (by omega), if_neg (by omega),
            if_pos ⟨Nat.le_refl j, by omega⟩]
          exact getD_set_self d j (readByte s j) 0 (by omega)
        · rw [getD_set_ne d (readByte s i) 0 (fun h => hji h.symm)]
          by_cases hc1 : (i + 1) ≤ j ∧ j < (strcpyLoop s (d.set i (readByte s i)) (i + 1) fuel).2
          · rw [if_pos hc1, if_pos (⟨by omega, hc1.2⟩ :
              i ≤ j ∧ j < (strcpyLoop s (d.set i (readByte s i)) (i + 1) fuel).2)]
          · rw [if_neg hc1, if_neg (fun hc :
              i ≤ j ∧ j < (strcpyLoop s (d.set i (readByte s i)) (i + 1) fuel).2 =>
                hc1 ⟨by omega, hc.2⟩)]

/-- The bytes of the C string "Hello, World!". -/
def helloWorld : List Nat := [72, 101, 108, 108, 111, 44, 32, 87, 111, 114, 108, 100, 33]

/-- C7: `safe_strcpy` returns -1 (InvalidArgs) exactly on an absent
argument or zero capacity; otherwise it copies at most `dest_size - 1`
bytes of `src`, writes the terminator at the first unused position, never
touches a byte at index `dest_size` or beyond, and returns 0 (Ok) iff all
of `src` fits (`cstrLen src < dest_size`), else 1 (Truncated); concretely,
capacity 8 with "Hello, World!" yields Truncated and "Hello, " plus a
terminator, and capacity 14 yields Ok with the full string. -/
theorem safe_strcpy_spec :
    (∀ ds s, (safe_strcpy none ds (some s)).1 = -1) ∧
    (∀ d ds, (safe_strcpy (some d) ds none).1 = -1) ∧
    (∀ d s, (safe_strcpy (some d) 0 (some s)).1 = -1) ∧
    (∀ d s ds, 0 < ds → ds ≤ d.length →
      ∃ d', safe_strcpy (some d) ds (some s) =
          ((if cstrLen s < ds then 0 else 1), some d') ∧
        d'.length = d.length ∧
        (∀ j, j < min (ds - 1) (cstrLen s) → readByte d' j = readByte s j) ∧
        readByte d' (min (ds - 1) (cstrLen s)) = 0 ∧
        (∀ j, min (ds - 1) (cstrLen s) < j → readByte d' j = readByte d j) ∧
        (∀ j, ds ≤ j → readByte d' j = readByte d j)) ∧
    safe_strcpy (some (List.replicate 32 7)) 8 (some helloWorld) =
      (1, some ([72, 101, 108, 108, 111, 44, 32, 0] ++ List.replicate 24 7)) ∧
    safe_strcpy (some (List.replicate 32 7)) 14 (some helloWorld) =
      (0, some (helloWorld ++ [0] ++ List.replicate 18 7)) := by
  refine ⟨fun ds s => rfl, fun d ds => rfl, fun d s => rfl, ?_, by decide, by decide⟩
  intro d s ds hds hdlen
  have hfuel : 0 + (ds - 1) < d.length := by omega
  obtain ⟨h1, h2, h3, h4, h5, h6⟩ := strcpyLoop_spec s (ds - 1) d 0 hfuel
  have hmle : (strcpyLoop s d 0 (ds - 1)).2 ≤ cstrLen s := by
    by_contra hcon
    exact h4 (cstrLen s) (Nat.zero_le _) (by omega) (readByte_cstrLen s)
  have hm : (strcpyLoop s d 0 (ds - 1)).2 = min (ds - 1) (cstrLen s) := by
    rcases Nat.lt_or_ge (strcpyLoop s d 0 (ds - 1)).2 (ds - 1) with hlt | hge
    · have hcl := cstrLen_le s (strcpyLoop s d 0 (ds - 1)).2 (h3 (by omega))
      omega
    · omega
  have hstat : (if readByte s (strcpyLoop s d 0 (ds - 1)).2 = 0 then (0 : Int) else 1) =
      (if cstrLen s < ds then (0 : Int) else 1) := by
    by_cases hz : readByte s (strcpyLoop s d 0 (ds - 1)).2 = 0
    · have hcl := cstrLen_le s (strcpyLoop s d 0 (ds - 1)).2 hz
      rw [if_pos hz, if_pos (by omega)]
    · have hne : ¬ cstrLen s < ds := by
        intro hlt
        have heq : (strcpyLoop s d 0 (ds - 1)).2 = cstrLen s := by omega
        exact hz (heq ▸ readByte_cstrLen s)
      rw [if_neg hz, if_neg hne]
  refine ⟨(strcpyLoop s d 0 (ds - 1)).1, ?_, h5, ?_, ?_, ?_, ?_⟩
  · simp only [safe_strcpy, if_neg (show ¬ ds = 0 by omega)]
    rw [hstat]
  · intro j hj
    show (strcpyLoop s d 0 (ds - 1)).1.getD j 0 = readByte s j
    rw [h6 j, if_pos ⟨Nat.zero_le j, by omega⟩]
  · show (strcpyLoop s d 0 (ds - 1)).1.getD (min (ds - 1) (cstrLen s)) 0 = 0
    rw [h6, if_neg (by omega), if_pos (by omega)]
  · intro j hj
    show (strcpyLoop s d 0 (ds - 1)).1.getD j 0 = readByte d j
    rw [h6, if_neg (by omega), if_neg (by omega)]
    rfl
  · intro j hj
    show (strcpyLoop s d 0 (ds - 1)).1.getD j 0 = readByte d j
    rw [h6, if_neg (by omega), if_neg (by omega)]
    rfl

theorem safe_strcpy_spec_witness :
    ∃ d', safe_strcpy (some (List.replicate 32 7)) 8 (some helloWorld) =
        ((if cstrLen helloWorld < 8 then 0 else 1), some d') ∧
      d'.length = (List.replicate 32 (7 : Nat)).length ∧
      (∀ j, j < min (8 - 1) (cstrLen helloWorld) → readByte d' j = readByte helloWorld j) ∧
      readByte d' (min (8 - 1) (cstrLen helloWorld)) = 0 ∧
      (∀ j, min (8 - 1) (cstrLen helloWorld) < j →
        readByte d' j = readByte (List.replicate 32 7) j) ∧
      (∀ j, 8 ≤ j → readByte d' j = readByte (List.replicate 32 7) j) :=
  safe_strcpy_spec.2.2.2.1 (List.replicate 32 7) helloWorld 8 (by decide) (by decide)

/-! ## Oversized guarded-buffer creation (C9) -/

/-- C9 (counterexample): the claim that `create_guarded_buffer` fails for
*every* size greater than 56 is refuted by `size_t` wrap-around: at
`size = 2^64 - 7` the computed `total_size = size + 8` wraps to 1, the pool
accepts the request and creation succeeds on the initial pool (mutating
it), while the C end-marker store lands far outside the block. -/
theorem create_guarded_buffer_oversize_counterexample :
    56 < 2 ^ 64 - 7 ∧
    (create_guarded_buffer initialPool (2 ^ 64 - 7)).1 = some 0 ∧
    (create_guarded_buffer initialPool (2 ^ 64 - 7)).2 ≠ initialPool := by
  refine ⟨by decide, by decide, by decide⟩

/-- C9 (amended): for every payload size with `56 < size ≤ 2^64 - 8` — so
the `size_t` computation `size + 8` does not wrap past `2^64` — creation
fails and leaves the pool entirely unchanged, because the pool rejects the
request: `total_size` is larger than one 64-byte block (or exactly
`2^64`, wrapping to the invalid size 0). -/
theorem create_guarded_buffer_oversize (pool : MemoryPool) (size : Nat)
    (h1 : 56 < size) (h2 : size ≤ 2 ^ 64 - 8) :
    create_guarded_buffer pool size = (none, pool) := by
  have htot : pool_alloc pool ((4 + size + 4) % U64_MOD) = (none, pool) := by
    apply pool_alloc_invalid
    rw [U64_MOD_eq, POOL_BLOCK_SIZE_eq]
    omega
  simp only [create_guarded_buffer, if_neg (show ¬ size = 0 by omega), htot]

theorem create_guarded_buffer_oversize_witness :
    create_guarded_buffer initialPool 57 = (none, initialPool) :=
  create_guarded_buffer_oversize initialPool 57 (by decide) (by decide)

/-! ## Indistinguishable failure results (C10) -/

/-- A pool in which every block is in use. -/
def fullPool : MemoryPool :=
  { blocks := List.replicate POOL_NUM_BLOCKS
      { data := List.replicate POOL_BLOCK_SIZE 0, in_use := true }
    allocated_count := 32
    peak_usage := 32 }

/-- C10: the pool's failure results collapse at the public interface:
`pool_alloc` returns the same NULL whether the size is invalid or the pool
is exhausted, and `pool_free` returns the same false for a NULL handle, a
handle outside every block's data range, and a double free, so a caller
observing only the return value cannot tell the error kinds apart. -/
theorem pool_failures_indistinguishable (p1 p2 p3 p4 p5 : MemoryPool)
    (s1 s2 i off : Nat)
    (h1 : s1 = 0 ∨ POOL_BLOCK_SIZE < s1)
    (h2a : 0 < s2) (h2b : s2 ≤ POOL_BLOCK_SIZE)
    (h2c : ∀ b ∈ p2.blocks, b.in_use = true)
    (h4a : i < POOL_NUM_BLOCKS) (h4b : off < POOL_BLOCK_SIZE)
    (h4c : (p4.blocks.getD i zeroBlock).in_use = false) :
    (pool_alloc p1 s1).1 = none ∧
    (pool_alloc p2 s2).1 = none ∧
    (pool_alloc p1 s1).1 = (pool_alloc p2 s2).1 ∧
    (pool_free p3 PoolPtr.null).1 = false ∧
    (pool_free p4 (PoolPtr.inPool i off)).1 = false ∧
    (pool_free p5 PoolPtr.outside).1 = false ∧
    (pool_free p3 PoolPtr.null).1 = (pool_free p4 (PoolPtr.inPool i off)).1 ∧
    (pool_free p4 (PoolPtr.inPool i off)).1 = (pool_free p5 PoolPtr.outside).1 := by
  have ha1 : pool_alloc p1 s1 = (none, p1) := pool_alloc_invalid p1 s1 h1
  have ha2 : pool_alloc p2 s2 = (none, p2) :=
    pool_alloc_exhausted p2 s2 (by omega) ((findFreeIdx_eq_none_iff _).mpr h2c)
  have hf4 : pool_free p4 (PoolPtr.inPool i off) = (false, p4) :=
    pool_free_found_free p4 i off h4a h4b h4c
  rw [ha1, ha2, hf4]
  exact ⟨rfl, rfl, rfl, rfl, rfl, rfl, rfl, rfl⟩

theorem pool_failures_indistinguishable_witness :
    (pool_alloc initialPool 0).1 = none ∧
    (pool_alloc fullPool 8).1 = none ∧
    (pool_alloc initialPool 0).1 = (pool_alloc fullPool 8).1 ∧
    (pool_free initialPool PoolPtr.null).1 = false ∧
    (pool_free initialPool (PoolPtr.inPool 0 0)).1 = false ∧
    (pool_free initialPool PoolPtr.outside).1 = false ∧
    (pool_free initialPool PoolPtr.null).1 = (pool_free initialPool (PoolPtr.inPool 0 0)).1 ∧
    (pool_free initialPool (PoolPtr.inPool 0 0)).1 = (pool_free initialPool PoolPtr.outside).1 :=
  pool_failures_indistinguishable initialPool fullPool initialPool initialPool initialPool
    0 8 0 0 (Or.inl rfl) (by decide) (by decide) (by decide) (by decide) (by decide)
    (by decide)

/-! ## Guarded-buffer integrity (C1) -/

theorem length_writeU32le (m : List Nat) (off v : Nat) :
    (writeU32le m off v).length = m.length := by
  simp [writeU32le]

theorem guardedBlockBytes_length (size : Nat) : (guardedBlockBytes size).length = 64 := by
  rw [guardedBlockBytes, length_writeU32le, length_writeU32le, List.length_replicate,
    POOL_BLOCK_SIZE_eq]

theorem getD_writeU32le_ne (m : List Nat) (off v j : Nat) (h : j < off ∨ off + 3 < j) :
    (writeU32le m off v).getD j 0 = m.getD j 0 := by
  unfold writeU32le
  rw [getD_set_ne _ _ _ (show off + 3 ≠ j by omega),
    getD_set_ne _ _ _ (show off + 2 ≠ j by omega),
    getD_set_ne _ _ _ (show off + 1 ≠ j by omega),
    getD_set_ne _ _ _ (show off ≠ j by omega)]

theorem readU32le_writeU32le (m : List Nat) (off v : Nat) (hv : v < 2 ^ 32)
    (hlen : off + 3 < m.length) : readU32le (writeU32le m off v) off = v := by
  have h0 : (writeU32le m off v).getD off 0 = v % 256 := by
    unfold writeU32le
    rw [getD_set_ne _ _ _ (show off + 3 ≠ off by omega),
      getD_set_ne _ _ _ (show off + 2 ≠ off by omega),
      getD_set_ne _ _ _ (show off + 1 ≠ off by omega)]
    exact getD_set_self m off _ 0 (by omega)
  have h1 : (writeU32le m off v).getD (off + 1) 0 = v / 256 % 256 := by
    unfold writeU32le
    rw [getD_set_ne _ _ _ (show off + 3 ≠ off + 1 by omega),
      getD_set_ne _ _ _ (show off + 2 ≠ off + 1 by omega)]
    exact getD_set_self _ (off + 1) _ 0 (by simp only [List.length_set]; omega)
  have h2 : (writeU32le m off v).getD (off + 2) 0 = v / 256 ^ 2 % 256 := by
    unfold writeU32le
    rw [getD_set_ne _ _ _ (show off + 3 ≠ off + 2 by omega)]
    exact getD_set_self _ (off + 2) _ 0 (by simp only [List.length_set]; omega)
  have h3 : (writeU32le m off v).getD (off + 3) 0 = v / 256 ^ 3 % 256 := by
    unfold writeU32le
    exact getD_set_self _ (off + 3) _ 0 (by simp only [List.length_set]; omega)
  unfold readU32le readByte
  rw [h0, h1, h2, h3]
  omega

theorem readU32le_writeU32le_disjoint (m : List Nat) (off v off' : Nat)
    (h : off' + 3 < off ∨ off + 3 < off') :
    readU32le (writeU32le m off v) off' = readU32le m off' := by
  unfold readU32le readByte
  rw [getD_writeU32le_ne _ _ _ _ (by omega), getD_writeU32le_ne _ _ _ _ (by omega),
    getD_writeU32le_ne _ _ _ _ (by omega), getD_writeU32le_ne _ _ _ _ (by omega)]

theorem guardedBlockBytes_markers (size : Nat) (hpos : 0 < size) (hfit : size ≤ 56) :
    readU32le (guardedBlockBytes size) 0 = GUARD_PATTERN ∧
    readU32le (guardedBlockBytes size) (4 + size) = GUARD_PATTERN := by
  have hpat : GUARD_PATTERN < 2 ^ 32 := by decide
  constructor
  · rw [guardedBlockBytes, readU32le_writeU32le_disjoint _ _ _ _ (by omega)]
    exact readU32le_writeU32le _ 0 _ hpat
      (by rw [List.length_replicate, POOL_BLOCK_SIZE_eq]; omega)
  · rw [guardedBlockBytes]
    exact readU32le_writeU32le _ (4 + size) _ hpat
      (by rw [length_writeU32le, List.length_replicate, POOL_BLOCK_SIZE_eq]; omega)

theorem foldWrites_getD (ws : List (Nat × Nat)) :
    ∀ (m : List Nat) (j : Nat), (∀ p ∈ ws, p.1 ≠ j) →
      (ws.foldl (fun mem p => writeByte mem p.1 p.2) m).getD j 0 = m.getD j 0 := by
  induction ws with
  | nil => intro m j _; rfl
  | cons p rest ih =>
    intro m j hws
    rw [List.foldl_cons, ih _ j (fun q hq => hws q (List.mem_cons_of_mem p hq))]
    exact getD_set_ne m _ 0 (hws p (List.mem_cons_self p rest))

theorem foldWrites_length (ws : List (Nat × Nat)) :
    ∀ m : List Nat, (ws.foldl (fun mem p => writeByte mem p.1 p.2) m).length = m.length := by
  induction ws with
  | nil => intro m; rfl
  | cons p rest ih =>
    intro m
    rw [List.foldl_cons, ih]
    simp [writeByte]

theorem readU32le_foldWrites (ws : List (Nat × Nat)) (m : List Nat) (off : Nat)
    (h : ∀ p ∈ ws, p.1 < off ∨ off + 3 < p.1) :
    readU32le (ws.foldl (fun mem p => writeByte mem p.1 p.2) m) off = readU32le m off := by
  unfold readU32le readByte
  rw [foldWrites_getD ws m off (fun p hp => by have := h p hp; omega),
    foldWrites_getD ws m (off + 1) (fun p hp => by have := h p hp; omega),
    foldWrites_getD ws m (off + 2) (fun p hp => by have := h p hp; omega),
    foldWrites_getD ws m (off + 3) (fun p hp => by have := h p hp; omega)]

theorem check_after_marker_write (mem : List Nat) (size o v : Nat)
    (hpos : 0 < size) (hfit : size ≤ 56) (hlen : mem.length = 64)
    (hm0 : readU32le mem 0 = GUARD_PATTERN)
    (hm1 : readU32le mem (4 + size) = GUARD_PATTERN)
    (hrange : o < 4 ∨ (4 + size ≤ o ∧ o < 8 + size))
    (hv : v ≠ readByte mem o) :
    check_buffer_integrity (writeByte mem o v) size = false := by
  rw [check_buffer_integrity, if_neg (show ¬ size = 0 by omega)]
  simp only [decide_eq_false_iff_not]
  simp only [readU32le, readByte, writeByte, Nat.zero_add] at hm0 hm1 hv ⊢
  rcases hrange with ho | ho
  · intro hand
    apply hv
    have hA := hand.1
    interval_cases o
    · rw [getD_set_self mem 0 v 0 (by omega), getD_set_ne mem v 0 (by omega),
        getD_set_ne mem v 0 (by omega), getD_set_ne mem v 0 (by omega)] at hA
      omega
    · rw [getD_set_ne mem v 0 (by omega), getD_set_self mem 1 v 0 (by omega),
        getD_set_ne mem v 0 (by omega), getD_set_ne mem v 0 (by omega)] at hA
      omega
    · rw [getD_set_ne mem v 0 (by omega), getD_set_ne mem v 0 (by omega),
        getD_set_self mem 2 v 0 (by omega), getD_set_ne mem v 0 (by omega)] at hA
      omega
    · rw [getD_set_ne mem v 0 (by omega), getD_set_ne mem v 0 (by omega),
        getD_set_ne mem v 0 (by omega), getD_set_self mem 3 v 0 (by omega)] at hA
      omega
  · intro hand
    apply hv
    have hB := hand.2
    obtain ⟨r, hr, rfl⟩ : ∃ r, r < 4 ∧ o = 4 + size + r :=
      ⟨o - (4 + size), by omega, by omega⟩
    interval_cases r
    · rw [show 4 + size + 0 = 4 + size by omega] at hB ⊢
      rw [getD_set_self mem (4 + size) v 0 (by omega), getD_set_ne mem v 0 (by omega),
        getD_set_ne mem v 0 (by omega), getD_set_ne mem v 0 (by omega)] at hB
      omega
    · rw [getD_set_ne mem v 0 (by omega), getD_set_self mem (4 + size + 1) v 0 (by omega),
        getD_set_ne mem v 0 (by omega), getD_set_ne mem v 0 (by omega)] at hB
      omega
    · rw [getD_set_ne mem v 0 (by omega), getD_set_ne mem v 0 (by omega),
        getD_set_self mem (4 + size + 2) v 0 (by omega),
        getD_set_ne mem v 0 (by omega)] at hB
      omega
    · rw [getD_set_ne mem v 0 (by omega), getD_set_ne mem v 0 (by omega),
        getD_set_ne mem v 0 (by omega),
        getD_set_self mem (4 + size + 3) v 0 (by omega)] at hB
      omega

/-- C1 (amended): for every size in `(0, 56]`, the integrity check is true
immediately after creation and after any sequence of writes confined to
payload offsets `[0, size)` (block offsets `[4, 4+size)`); it becomes false
after any write that *changes* a byte of the start marker (block offsets
`[0, 4)`, i.e. payload bytes -4..-1, in particular byte -1) or of the
4-byte end marker (block offsets `[4+size, 8+size)`, payload bytes
`[size, size+4)`); and it is true only if both the 4 bytes immediately
before the payload and the 4 bytes at payload offset `size` decode to the
sentinel `GUARD_PATTERN`.  (Writes past the end-marker bytes, or marker
writes that store the value already present, are not detected — see the
counterexample.) -/
theorem guarded_buffer_integrity (size : Nat) (hpos : 0 < size) (hfit : size ≤ 56)
    (ws : List (Nat × Nat)) (hws : ∀ p ∈ ws, 4 ≤ p.1 ∧ p.1 < 4 + size) :
    check_buffer_integrity (guardedBlockBytes size) size = true ∧
    check_buffer_integrity
      (ws.foldl (fun mem p => writeByte mem p.1 p.2) (guardedBlockBytes size)) size = true ∧
    (∀ o v, (o < 4 ∨ (4 + size ≤ o ∧ o < 8 + size)) →
      v ≠ readByte (ws.foldl (fun mem p => writeByte mem p.1 p.2) (guardedBlockBytes size)) o →
      check_buffer_integrity
        (writeByte (ws.foldl (fun mem p => writeByte mem p.1 p.2) (guardedBlockBytes size)) o v)
        size = false) ∧
    (∀ mem, check_buffer_integrity mem size = true →
      readU32le mem 0 = GUARD_PATTERN ∧ readU32le mem (4 + size) = GUARD_PATTERN) := by
  obtain ⟨hm0, hm1⟩ := guardedBlockBytes_markers size hpos hfit
  have hf0 : readU32le
      (ws.foldl (fun mem p => writeByte mem p.1 p.2) (guardedBlockBytes size)) 0 =
      GUARD_PATTERN := by
    rw [readU32le_foldWrites ws _ 0 (fun p hp => by have := hws p hp; omega), hm0]
  have hf1 : readU32le
      (ws.foldl (fun mem p => writeByte mem p.1 p.2) (guardedBlockBytes size)) (4 + size) =
      GUARD_PATTERN := by
    rw [readU32le_foldWrites ws _ (4 + size) (fun p hp => by have := hws p hp; omega), hm1]
  have hflen : (ws.foldl (fun mem p => writeByte mem p.1 p.2)
      (guardedBlockBytes size)).length = 64 := by
    rw [foldWrites_length, guardedBlockBytes_length]
  refine ⟨?_, ?_, ?_, ?_⟩
  · rw [check_buffer_integrity, if_neg (show ¬ size = 0 by omega)]
    simp [hm0, hm1]
  · rw [check_buffer_integrity, if_neg (show ¬ size = 0 by omega)]
    simp [hf0, hf1]
  · intro o v ho hv
    exact check_after_marker_write _ size o v hpos hfit hflen hf0 hf1 ho hv
  · intro mem hchk
    rw [check_buffer_integrity, if_neg (show ¬ size = 0 by omega),
      decide_eq_true_eq] at hchk
    exact hchk

/-- C1 (counterexample): with `size = 16`, a write of the byte 88 at
payload offset 20 = `size + 4` (block offset 24) "touches payload byte
`size` or beyond", yet lands just past the 4-byte end marker and leaves
the integrity check true; likewise a write at payload offset 16 = `size`
(block offset 20) that stores 0xEF — the value the end marker already
holds there — leaves the check true.  Both refute the claim that *any*
write touching payload byte `size` or beyond makes the check false. -/
theorem guarded_buffer_integrity_counterexample :
    check_buffer_integrity (writeByte (guardedBlockBytes 16) 24 88) 16 = true ∧
    check_buffer_integrity (writeByte (guardedBlockBytes 16) 20 0xEF) 16 = true := by
  refine ⟨by decide, by decide⟩

theorem guarded_buffer_integrity_witness :
    check_buffer_integrity (guardedBlockBytes 16) 16 = true ∧
    check_buffer_integrity
      ([(4, 42), (19, 7)].foldl (fun mem p => writeByte mem p.1 p.2)
        (guardedBlockBytes 16)) 16 = true ∧
    check_buffer_integrity
      (writeByte ([(4, 42), (19, 7)].foldl (fun mem p => writeByte mem p.1 p.2)
        (guardedBlockBytes 16)) 3 0) 16 = false := by
  have h := guarded_buffer_integrity 16 (by decide) (by decide) [(4, 42), (19, 7)] (by decide)
  exact ⟨h.1, h.2.1, h.2.2.1 3 0 (Or.inl (by decide)) (by decide)⟩
